import Mathlib

/-!
# darksky: a verification development for `forecast.go`

The Go package builds a request URL by string concatenation (`buildURL`),
performs one HTTP GET (`getResponse`) and decodes the JSON body into a
`Forecast` (`decodeJSON`).

Conventions of the embedding:

* a Go `string` is a Lean `String` (a sequence of Unicode characters; Go strings that are
  not valid UTF-8 are outside the model); `len(s)` is the UTF-8 byte count;
* a Go slice is a `List` (a nil and an empty slice are identified, as `len` and
  `strings.Join` do not distinguish them);
* `bytes.Buffer` and `strings.Builder` are passed explicitly as state;
* a Go `*Forecast` is an `Option`, a Go `error` is an `Option` of an error value;
* the HTTP client and the JSON decoder are parameters of the pipeline; logging and the
  calls made are recorded in a trace; the 10 second timeout of the client is not modelled.
-/

set_option maxRecDepth 100000

namespace Darksky

/-! ## Request descriptor and URL builder -/

/-- The constant `url` of `forecast.go`. -/
def url : String := "https://api.darksky.net/forecast"

/-- ApiRequest contains all of the data for a request. -/
structure ApiRequest where
  Lat : String
  Long : String
  Key : String
  Exclude : List String
  Lang : String
  Units : String

/-- Go's builtin `len` on a string: the number of bytes. -/
def len (s : String) : Nat := s.utf8ByteSize

/-- The contents of a `bytes.Buffer`; the zero value is the empty buffer. -/
structure Buffer where
  buf : String := ""

/-- The method `(*bytes.Buffer).WriteString`: append to the contents. -/
def Buffer.WriteString (b : Buffer) (s : String) : Buffer := { buf := b.buf ++ s }

/-- The method `(*bytes.Buffer).String`: the contents. -/
def Buffer.String (b : Buffer) : String := b.buf

/-- The contents of a `strings.Builder`; the zero value is empty. -/
structure Builder where
  buf : String := ""

/-- The method `(*strings.Builder).WriteString`. -/
def Builder.WriteString (b : Builder) (s : String) : Builder := { buf := b.buf ++ s }

/-- The method `(*strings.Builder).String`. -/
def Builder.String (b : Builder) : String := b.buf

/-- The function `strings.Join`: no element gives the empty string, one element
gives that element, otherwise the first element is written and then, for every
further element, the separator and the element. -/
def Join (elems : List String) (sep : String) : String :=
  match elems with
  | [] => ""
  | [e] => e
  | e :: rest =>
    let b : Builder := {}
    let b := b.WriteString e
    let b := rest.foldl (fun b s => (b.WriteString sep).WriteString s) b
    b.String

/-- The function `buildURL` of `forecast.go`: creates the API URL string for the request. -/
def buildURL (req : ApiRequest) : String :=
  let apiURL : Buffer := {}
  let apiURL := apiURL.WriteString (url ++ "/")
  let apiURL := apiURL.WriteString (req.Key ++ "/")
  let apiURL := apiURL.WriteString (req.Lat ++ ",")
  let apiURL := apiURL.WriteString req.Long
  let apiURL :=
    if len req.Units > 0 then apiURL.WriteString ("?units=" ++ req.Units)
    else apiURL.WriteString "?units=auto"
  let apiURL :=
    if req.Exclude.length > 0 then
      apiURL.WriteString ("&exclude=" ++ Join req.Exclude ",")
    else apiURL
  let apiURL :=
    if len req.Lang > 0 then apiURL.WriteString ("&lang=" ++ req.Lang)
    else apiURL
  apiURL.String

/-! ## Transport and decoding pipeline

The HTTP client and the JSON decoder are parameters: `Get` stands for
`(&http.Client{Timeout: 10s}).Get`, giving the response body or an error, and `Decode`
for `json.NewDecoder(reader).Decode(&forecast)`, giving the contents of `forecast` after
the call and the error it returned (if any).  Every function returns, next to its Go
results, the trace of what it did. -/

/-- What a call does, in order. -/
inductive Event (Err : Type) where
  /-- The line `log.Println("[INFO] fetching forecast from", u)`. -/
  | logInfo (msg : String) (u : String)
  /-- A line `log.Println("[ERROR] ...", err)`. -/
  | logError (msg : String) (err : Err)
  /-- The call `client.Get(u)`. -/
  | get (u : String)
  /-- The call `json.NewDecoder(reader).Decode(&forecast)`. -/
  | decode
  /-- The deferred `resp.Body.Close()`. -/
  | close

/-- This event is an HTTP GET. -/
def Event.isGet {Err : Type} : Event Err → Bool
  | .get _ => true
  | _ => false

/-- This event is a decode of the body. -/
def Event.isDecode {Err : Type} : Event Err → Bool
  | .decode => true
  | _ => false

/-- The Go results `(*Forecast, error)` of a call, with the trace of the call. -/
structure Outcome (Forecast Err : Type) where
  trace : List (Event Err)
  forecast : Option Forecast
  err : Option Err

/-- The function `decodeJSON` of `forecast.go`: unmarshalls the JSON into our types.
`zero` is the zero value of `Forecast`, the initial contents of `var forecast Forecast`. -/
def decodeJSON {Body Forecast Err : Type} (Decode : Body → Forecast → Forecast × Option Err)
    (zero : Forecast) (reader : Body) : Outcome Forecast Err :=
  let forecast := zero
  match Decode reader forecast with
  | (_, some err) =>
    { trace := [.decode, .logError "[ERROR] decoding json:" err], forecast := none, err := some err }
  | (forecast, none) =>
    { trace := [.decode], forecast := some forecast, err := none }

/-- The function `getResponse` of `forecast.go`: takes the URL and returns the parsed
forecast. -/
def getResponse {Body Forecast Err : Type} (Get : String → Except Err Body)
    (Decode : Body → Forecast → Forecast × Option Err) (zero : Forecast) (u : String) :
    Outcome Forecast Err :=
  let t := [Event.logInfo "[INFO] fetching forecast from" u]
  let forecast : Option Forecast := none
  let t := t ++ [Event.get u]
  match Get u with
  | .error err =>
    { trace := t ++ [.logError "[ERROR] Unable to Get: " err], forecast := forecast, err := some err }
  | .ok body =>
    let d := decodeJSON Decode zero body
    let t := t ++ d.trace
    let forecast := d.forecast
    match d.err with
    | some err =>
      { trace := t ++ [.logError "[ERROR] Unable to decode JSON: " err, .close],
        forecast := forecast, err := some err }
    | none =>
      { trace := t ++ [.close], forecast := forecast, err := none }

/-- The function `GetForecast` of `forecast.go`: calls the darksky API and responds with
the forecast. -/
def GetForecast {Body Forecast Err : Type} (Get : String → Except Err Body)
    (Decode : Body → Forecast → Forecast × Option Err) (zero : Forecast) (req : ApiRequest) :
    Outcome Forecast Err :=
  let u := buildURL req
  let r := getResponse Get Decode zero u
  r

/-! ## JSON decoding

The body is decoded by `encoding/json`, which is not part of this repository.  Its
`Decoder.Decode` is modelled on a scanned document, driven by the struct declarations of
`forecast.go` (field names, field types and `json` tags) the way the package walks them by
reflection. The scanner, `strconv.ParseFloat` and the case folding of keys are parameters. -/

/-- A scanned JSON value; a number keeps the text of its literal. -/
inductive JSON where
  | null
  | bool (b : Bool)
  | number (lit : String)
  | string (s : String)
  | array (elems : List JSON)
  | object (members : List (String × JSON))

/-- The Go types of `forecast.go` as reflection presents them: a struct is its name and
its fields, each with Go name, key of its `json` tag (the text before the comma) and type. -/
inductive GoType where
  | float64
  | int
  | string
  | slice (elem : GoType)
  | struct (name : String) (fields : List (String × String × GoType))

/-- The values of these Go types; `F` is the type of `float64` values. A struct value
lists its fields by Go name; a nil and an empty slice are identified. -/
inductive GoVal (F : Type) where
  | float64 (x : F)
  | int (n : Int)
  | string (s : String)
  | slice (elems : List (GoVal F))
  | struct (fields : List (String × GoVal F))

/-- The errors of `Decoder.Decode`: an error of reading or scanning the next value (an I/O
error or a `*json.SyntaxError`), or a `*json.UnmarshalTypeError` with its `Value` and
`Type`. -/
inductive DecodeError (E : Type) where
  | read (e : E)
  | unmarshalType (value : String) (type : GoType)

/-- What the model takes from outside the repository. -/
structure JsonLib (Body F E : Type) where
  /-- The scanner of `Decoder.Decode`: the next JSON value of the stream, or an error. -/
  readValue : Body → Except E JSON
  /-- The function `strconv.ParseFloat(lit, 64)`; `none` when it returns an error. -/
  parseFloat : String → Option F
  /-- The `float64` zero. -/
  zeroFloat : F
  /-- The case-insensitive comparison of a field's key with an object key. -/
  equalFold : String → String → Bool

namespace Schema

/-- Currently is the current weather data. -/
def Currently : GoType := .struct "Currently" [
  ("ApparentTemperature", "apparentTemperature", .float64),
  ("CloudCover", "cloudCover", .float64),
  ("DewPoint", "dewPoint", .float64),
  ("Humidity", "humidity", .float64),
  ("Icon", "icon", .string),
  ("NearestStormBearing", "nearestStormBearing", .float64),
  ("NearestStormDistance", "nearestStormDistance", .float64),
  ("Ozone", "ozone", .float64),
  ("PrecipIntensity", "precipIntensity", .float64),
  ("PrecipProbability", "precipProbability", .float64),
  ("Pressure", "pressure", .float64),
  ("Summary", "summary", .string),
  ("Temperature", "temperature", .float64),
  ("Time", "time", .int),
  ("Visibility", "visibility", .float64),
  ("WindBearing", "windBearing", .float64),
  ("WindSpeed", "windSpeed", .float64)]

/-- DailyData is the data block for the daily forecast. -/
def DailyData : GoType := .struct "DailyData" [
  ("ApparentTemperatureMax", "apparentTemperatureMax", .float64),
  ("ApparentTemperatureMaxTime", "apparentTemperatureMaxTime", .int),
  ("ApparentTemperatureMin", "apparentTemperatureMin", .float64),
  ("ApparentTemperatureMinTime", "apparentTemperatureMinTime", .int),
  ("CloudCover", "cloudCover", .float64),
  ("DewPoint", "dewPoint", .float64),
  ("Humidity", "humidity", .float64),
  ("Icon", "icon", .string),
  ("MoonPhase", "moonPhase", .float64),
  ("Ozone", "ozone", .float64),
  ("PrecipIntensity", "precipIntensity", .float64),
  ("PrecipIntensityMax", "precipIntensityMax", .float64),
  ("PrecipIntensityMaxTime", "precipIntensityMaxTime", .int),
  ("PrecipProbability", "precipProbability", .float64),
  ("PrecipType", "precipType", .string),
  ("Pressure", "pressure", .float64),
  ("Summary", "summary", .string),
  ("SunriseTime", "sunriseTime", .int),
  ("SunsetTime", "sunsetTime", .int),
  ("TemperatureMax", "temperatureMax", .float64),
  ("TemperatureMaxTime", "temperatureMaxTime", .int),
  ("TemperatureMin", "temperatureMin", .float64),
  ("TemperatureMinTime", "temperatureMinTime", .int),
  ("Time", "time", .int),
  ("Visibility", "visibility", .float64),
  ("WindBearing", "windBearing", .float64),
  ("WindSpeed", "windSpeed", .float64)]

/-- Daily is the daily forecast information. -/
def Daily : GoType := .struct "Daily" [
  ("Icon", "icon", .string),
  ("Summary", "summary", .string),
  ("Data", "data", .slice DailyData)]

/-- HourlyData is the data block for the hourly forecast. -/
def HourlyData : GoType := .struct "HourlyData" [
  ("ApparentTemperature", "apparentTemperature", .float64),
  ("CloudCover", "cloudCover", .float64),
  ("DewPoint", "dewPoint", .float64),
  ("Humidity", "humidity", .float64),
  ("Icon", "icon", .string),
  ("Ozone", "ozone", .float64),
  ("PrecipIntensity", "precipIntensity", .float64),
  ("PrecipProbability", "precipProbability", .float64),
  ("Pressure", "pressure", .float64),
  ("Summary", "summary", .string),
  ("Temperature", "temperature", .float64),
  ("Time", "time", .int),
  ("Visibility", "visibility", .float64),
  ("WindBearing", "windBearing", .float64),
  ("WindSpeed", "windSpeed", .float64)]

/-- Hourly is the hourly forecast information. -/
def Hourly : GoType := .struct "Hourly" [
  ("Icon", "icon", .string),
  ("Summary", "summary", .string),
  ("Data", "data", .slice HourlyData)]

/-- MinutelyData is the data block for the minutely forecast. -/
def MinutelyData : GoType := .struct "MinutelyData" [
  ("PrecipIntensity", "precipIntensity", .float64),
  ("PrecipProbability", "precipProbability", .float64),
  ("Time", "time", .int)]

/-- Minutely is the minute by minute forecast information (its `Summary` carries the tag
`json:"string,omitempty"`). No other declaration of `forecast.go` refers to this type. -/
def Minutely : GoType := .struct "Minutely" [
  ("Icon", "icon", .string),
  ("Summary", "string", .string),
  ("Data", "data", .slice MinutelyData)]

/-- AlertData is the data block for weather alerts. -/
def AlertData : GoType := .struct "AlertData" [
  ("Description", "description", .string),
  ("Expires", "expires", .int),
  ("Regions", "regions", .slice .string),
  ("Severity", "severity", .string),
  ("Time", "time", .int),
  ("Title", "title", .string),
  ("URI", "uri", .string)]

/-- Forecast is the forecast object returned from the API. -/
def Forecast : GoType := .struct "Forecast" [
  ("Currently", "currently", Currently),
  ("Daily", "daily", Daily),
  ("Hourly", "hourly", Hourly),
  ("Latitude", "latitude", .float64),
  ("Longitude", "longitude", .float64),
  ("Offset", "offset", .int),
  ("Timezone", "timezone", .string),
  ("Alerts", "alerts", .slice AlertData)]

end Schema

mutual
/-- The zero value of a Go type. -/
def GoType.zero {F : Type} (z : F) : GoType → GoVal F
  | .float64 => .float64 z
  | .int => .int 0
  | .string => .string ""
  | .slice _ => .slice []
  | .struct _ fields => .struct (zeroFields z fields)
/-- The zero values of the fields of a struct type. -/
def zeroFields {F : Type} (z : F) : List (String × String × GoType) → List (String × GoVal F)
  | [] => []
  | (name, _, t) :: rest => (name, t.zero z) :: zeroFields z rest
end

/-- The fields of a struct value. -/
def GoVal.fields {F : Type} : GoVal F → List (String × GoVal F)
  | .struct fields => fields
  | _ => []

/-- The value of the field `name` among the fields of a struct value. -/
def getField {F : Type} (vals : List (String × GoVal F)) (name : String) : Option (GoVal F) :=
  vals.lookup name

/-- Assignment to the field `name` among the fields of a struct value. -/
def setField {F : Type} (vals : List (String × GoVal F)) (name : String) (v : GoVal F) :
    List (String × GoVal F) :=
  vals.map (fun p => if p.1 = name then (p.1, v) else p)

/-- Modelled from the spec: the field lookup of `encoding/json`, which is not part of the
repository. The field picked for an object key is the first field whose key is
exactly the object key, otherwise the first field whose key equals it up to case. -/
def findField (equalFold : String → String → Bool) (fields : List (String × String × GoType))
    (key : String) : Option (String × String × GoType) :=
  match fields.find? (fun f => f.2.1 = key) with
  | some f => some f
  | none => fields.find? (fun f => equalFold f.2.1 key)

/-- The digits of a decimal numeral, most significant first, added to `acc`. -/
def parseDigits (acc : Nat) : List Char → Option Nat
  | [] => some acc
  | c :: cs => if c.isDigit then parseDigits (acc * 10 + (c.toNat - 48)) cs else none

/-- Modelled from the spec: the function `strconv.ParseInt(lit, 10, 64)` followed by the overflow check for `int`
(taken to be 64 bits wide); `none` when the literal is not a plain decimal integer or is
out of range. -/
def ParseInt (lit : String) : Option Int :=
  match lit.data with
  | [] => none
  | '-' :: ds =>
    if ds = [] then none
    else (parseDigits 0 ds).bind (fun n => if n ≤ 2 ^ 63 then some (-(n : Int)) else none)
  | '+' :: ds =>
    if ds = [] then none
    else (parseDigits 0 ds).bind (fun n => if n < 2 ^ 63 then some (n : Int) else none)
  | ds => (parseDigits 0 ds).bind (fun n => if n < 2 ^ 63 then some (n : Int) else none)

/-- The first of two errors (`saveError` keeps the first error it is given). -/
def firstError {E : Type} (e1 e2 : Option E) : Option E :=
  match e1 with
  | some e => some e
  | none => e2

mutual
/-- Modelled from the spec: the method `decodeState.value` of `encoding/json`, which is not
part of the repository. It stores a JSON value into a Go value of type `t` whose
contents are `old`, and gives the new contents and the first type error met. A `null` resets
a slice and leaves every other value alone; a literal of the wrong kind, an array for a
non-slice and an object for a non-struct give an `UnmarshalTypeError` and leave the value
alone; an array resets the slice and appends each element, decoded into a zero value. -/
def decodeValue {Body F E : Type} (lib : JsonLib Body F E) :
    JSON → GoType → GoVal F → GoVal F × Option (DecodeError E)
  | .null, t, old =>
    match t with
    | .slice _ => (.slice [], none)
    | _ => (old, none)
  | .bool _, t, old => (old, some (.unmarshalType "bool" t))
  | .number lit, t, old =>
    match t with
    | .int =>
      match ParseInt lit with
      | some n => (.int n, none)
      | none => (old, some (.unmarshalType ("number " ++ lit) t))
    | .float64 =>
      match lib.parseFloat lit with
      | some x => (.float64 x, none)
      | none => (old, some (.unmarshalType ("number " ++ lit) t))
    | _ => (old, some (.unmarshalType "number" t))
  | .string s, t, old =>
    match t with
    | .string => (.string s, none)
    | _ => (old, some (.unmarshalType "string" t))
  | .array elems, t, old =>
    match t with
    | .slice elem =>
      let r := decodeElems lib elems elem
      (.slice r.1, r.2)
    | _ => (old, some (.unmarshalType "array" t))
  | .object members, t, old =>
    match t with
    | .struct _ fields =>
      let r := decodeMembers lib members fields old.fields
      (.struct r.1, r.2)
    | _ => (old, some (.unmarshalType "object" t))
/-- Modelled from the spec: the array case of `encoding/json`. The elements of a JSON array
are decoded in order into fresh elements of type `elem`. -/
def decodeElems {Body F E : Type} (lib : JsonLib Body F E) :
    List JSON → GoType → List (GoVal F) × Option (DecodeError E)
  | [], _ => ([], none)
  | j :: js, elem =>
    let r1 := decodeValue lib j elem (elem.zero lib.zeroFloat)
    let r2 := decodeElems lib js elem
    (r1.1 :: r2.1, firstError r1.2 r2.2)
/-- Modelled from the spec: the object case of `encoding/json`. The members of a JSON object
are decoded in order into the fields `vals` of a struct: a
key that picks no field is skipped with its value, otherwise the value is decoded into the
field that the key picks. -/
def decodeMembers {Body F E : Type} (lib : JsonLib Body F E) :
    List (String × JSON) → List (String × String × GoType) → List (String × GoVal F) →
      List (String × GoVal F) × Option (DecodeError E)
  | [], _, vals => (vals, none)
  | (key, j) :: ms, fields, vals =>
    match findField lib.equalFold fields key with
    | none => decodeMembers lib ms fields vals
    | some (name, _, t) =>
      let r1 := decodeValue lib j t ((getField vals name).getD (t.zero lib.zeroFloat))
      let r2 := decodeMembers lib ms fields (setField vals name r1.1)
      (r2.1, firstError r1.2 r2.2)
end

/-- Modelled from the spec: the method `Decoder.Decode(&v)` of `encoding/json` for `v` of type `t` with contents `old`: read the next
value of the stream, returning the error if that fails, then store it into `v`. -/
def Decode {Body F E : Type} (lib : JsonLib Body F E) (t : GoType) (reader : Body)
    (old : GoVal F) : GoVal F × Option (DecodeError E) :=
  match lib.readValue reader with
  | .error e => (old, some (.read e))
  | .ok j => decodeValue lib j t old

mutual
/-- A JSON value fits a Go type: `null` fits every type, a number fits `int` when
`ParseInt` accepts its literal and `float64` when `ParseFloat` does, a string fits
`string`, an array fits a slice when its elements fit the element type, and an object fits
a struct when every member whose key picks a field fits the type of that field. -/
def fits {Body F E : Type} (lib : JsonLib Body F E) : JSON → GoType → Bool
  | .null, _ => true
  | .bool _, _ => false
  | .number lit, t =>
    match t with
    | .int => (ParseInt lit).isSome
    | .float64 => (lib.parseFloat lit).isSome
    | _ => false
  | .string _, t =>
    match t with
    | .string => true
    | _ => false
  | .array elems, t =>
    match t with
    | .slice elem => fitsElems lib elems elem
    | _ => false
  | .object members, t =>
    match t with
    | .struct _ fields => fitsMembers lib members fields
    | _ => false
/-- Every element of a JSON array fits the type `elem`. -/
def fitsElems {Body F E : Type} (lib : JsonLib Body F E) : List JSON → GoType → Bool
  | [], _ => true
  | j :: js, elem => fits lib j elem && fitsElems lib js elem
/-- Every member of a JSON object whose key picks a field fits the type of that field. -/
def fitsMembers {Body F E : Type} (lib : JsonLib Body F E) :
    List (String × JSON) → List (String × String × GoType) → Bool
  | [], _ => true
  | (key, j) :: ms, fields =>
    (match findField lib.equalFold fields key with
      | none => true
      | some (_, _, t) => fits lib j t) && fitsMembers lib ms fields
end

/-- An instance of the parameters for evaluating examples: the body is the scanned
document, a `float64` is represented by the literal it was parsed from, keys are compared
up to ASCII case. -/
def exampleLib : JsonLib JSON String String where
  readValue := fun j => .ok j
  parseFloat := fun lit => some lit
  zeroFloat := "0"
  equalFold := fun a b => a.data.map Char.toLower = b.data.map Char.toLower

/-- The fields of a struct type. -/
def GoType.fields : GoType → List (String × String × GoType)
  | .struct _ fields => fields
  | _ => []

/-- The call `decodeJSON(reader)` of `forecast.go` with the decoder above: `Decode` into a
`var forecast Forecast`, which starts at its zero value. -/
def decodeBody {Body F E : Type} (lib : JsonLib Body F E) (reader : Body) :
    Outcome (GoVal F) (DecodeError E) :=
  decodeJSON (Decode lib Schema.Forecast) (Schema.Forecast.zero lib.zeroFloat) reader

/-- The object key picks a field of `Forecast`. -/
def picksField {Body F E : Type} (lib : JsonLib Body F E) (key : String) : Bool :=
  (findField lib.equalFold Schema.Forecast.fields key).isSome

/-! ## Vocabulary for statements about URLs -/

/-- The string `sub` occurs in `s` (as `strings.Contains s sub`). -/
def Contains (s sub : String) : Prop := sub.data <:+: s.data

instance (s sub : String) : Decidable (Contains s sub) :=
  inferInstanceAs (Decidable (sub.data <:+: s.data))

/-- The string `s` ends with `sub` (as `strings.HasSuffix s sub`). -/
def HasSuffix (s sub : String) : Prop := sub.data <:+ s.data

/-- The character `c` does not occur in `s`. -/
def Avoids (s : String) (c : Char) : Prop := c ∉ s.data

/-- A string with none of the characters `/`, `,`, `?`, `&`. -/
def URLSafeString (s : String) : Prop :=
  Avoids s '/' ∧ Avoids s ',' ∧ Avoids s '?' ∧ Avoids s '&'

/-- A request in which `Key`, `Lat`, `Long`, `Units`, `Lang` and every entry of
`Exclude` contain none of the characters `/`, `,`, `?`, `&`. -/
def URLSafe (r : ApiRequest) : Prop :=
  URLSafeString r.Key ∧ URLSafeString r.Lat ∧ URLSafeString r.Long ∧
  URLSafeString r.Units ∧ URLSafeString r.Lang ∧ ∀ e ∈ r.Exclude, URLSafeString e

instance (s : String) (c : Char) : Decidable (Avoids s c) :=
  inferInstanceAs (Decidable (c ∉ s.data))

instance (s : String) : Decidable (URLSafeString s) :=
  inferInstanceAs (Decidable (_ ∧ _ ∧ _ ∧ _))

instance (r : ApiRequest) : Decidable (URLSafe r) :=
  inferInstanceAs (Decidable (_ ∧ _ ∧ _ ∧ _ ∧ _ ∧ _))

/-- The query string of a URL, as `net/url` splits the text given to `client.Get`: the
fragment, which starts at the first `#`, is cut off, and the query is what follows the
first `?` of the rest. -/
def queryString (u : String) : List Char :=
  ((u.data.takeWhile (fun c => c != '#')).dropWhile (fun c => c != '?')).drop 1

/-- The parameters of a query string: its pieces between `&`. -/
def queryParams (q : List Char) : List (List Char) := q.splitOn '&'

/-- The number of positions of a text at which the pattern `p` occurs. -/
def countOcc (p : List Char) : List Char → Nat
  | [] => if p <+: [] then 1 else 0
  | x :: xs => (if p <+: x :: xs then 1 else 0) + countOcc p xs

/-- The value sent for the `units` parameter. -/
def unitsValue (req : ApiRequest) : String :=
  if req.Units = "" then "auto" else req.Units

/-- The text `buildURL` appends for the exclude list. -/
def excludePart (req : ApiRequest) : String :=
  if req.Exclude = [] then "" else "&exclude=" ++ Join req.Exclude ","

/-- The text `buildURL` appends for the language code. -/
def langPart (req : ApiRequest) : String :=
  if req.Lang = "" then "" else "&lang=" ++ req.Lang

/-! ## Basic facts -/

theorem utf8Len_eq_zero (cs : List Char) : String.utf8Len cs = 0 ↔ cs = [] := by
  cases cs with
  | nil => simp
  | cons c cs =>
    have := Char.utf8Size_pos c
    simp [String.utf8Len_cons]
    omega

theorem len_pos_iff (s : String) : len s > 0 ↔ s ≠ "" := by
  cases s with
  | mk cs =>
    have h := utf8Len_eq_zero cs
    have h2 : (String.mk cs = "") ↔ cs = [] := by
      constructor
      · intro h; exact congrArg String.data h
      · intro h; subst h; rfl
    rw [len, String.utf8ByteSize_mk, ne_eq, h2, ← h]
    omega

theorem Join_foldl (sep : String) (rest : List String) (b : Builder) :
    (rest.foldl (fun b s => (b.WriteString sep).WriteString s) b).String
      = String.intercalate.go b.buf sep rest := by
  induction rest generalizing b with
  | nil => simp [Builder.String, String.intercalate.go]
  | cons s rest ih =>
    rw [List.foldl_cons, ih]
    rfl

theorem Join_eq_intercalate (elems : List String) (sep : String) :
    Join elems sep = sep.intercalate elems := by
  match elems with
  | [] => rfl
  | [e] => rfl
  | e :: f :: rest =>
    show (List.foldl (fun b s => (b.WriteString sep).WriteString s)
      (Builder.WriteString {} e) (f :: rest)).String = _
    rw [Join_foldl]
    show String.intercalate.go ("" ++ e) sep (f :: rest) = String.intercalate.go e sep (f :: rest)
    rw [String.empty_append]

theorem intercalate_go_append (acc sep : String) (rest : List String) :
    String.intercalate.go acc sep rest = acc ++ String.intercalate.go "" sep rest := by
  induction rest generalizing acc with
  | nil => simp [String.intercalate.go]
  | cons s rest ih =>
    simp only [String.intercalate.go]
    rw [ih (acc ++ sep ++ s), ih ("" ++ sep ++ s)]
    simp [String.append_assoc]

theorem Join_cons_cons (e f : String) (rest : List String) (sep : String) :
    Join (e :: f :: rest) sep = e ++ sep ++ Join (f :: rest) sep := by
  simp only [Join_eq_intercalate, String.intercalate, String.intercalate.go]
  rw [intercalate_go_append (e ++ sep ++ f), intercalate_go_append f]
  simp [String.append_assoc]

theorem Join_single (e : String) (sep : String) : Join [e] sep = e := rfl

theorem length_pos_iff_ne_nil (l : List String) : l.length > 0 ↔ l ≠ [] := by
  cases l <;> simp

theorem buildURL_norm (r : ApiRequest) :
    buildURL r = url ++ "/" ++ r.Key ++ "/" ++ r.Lat ++ "," ++ r.Long ++ "?units="
      ++ unitsValue r ++ excludePart r ++ langPart r := by
  unfold buildURL unitsValue excludePart langPart
  simp only [len_pos_iff, length_pos_iff_ne_nil, Buffer.WriteString, Buffer.String]
  by_cases hu : r.Units = "" <;> by_cases he : r.Exclude = [] <;> by_cases hl : r.Lang = "" <;>
    simp [hu, he, hl, String.append_assoc]

/-! ## Occurrences of a pattern in a concatenation -/

theorem prefix_of_not_mem {α : Type} {c : α} {p A B : List α}
    (hc : c ∉ p) (h : p <+: A ++ c :: B) : p <+: A := by
  rcases Nat.lt_or_ge A.length p.length with hlt | hle
  · exfalso
    have h1 : A ++ [c] <+: p := by
      refine @List.prefix_of_prefix_length_le _ (A ++ [c]) p (A ++ c :: B) ?_ h ?_
      · exact ⟨B, by simp⟩
      · simp; omega
    exact hc (h1.subset (by simp))
  · exact List.prefix_of_prefix_length_le h (List.prefix_append A (c :: B)) hle

theorem infix_split_of_not_mem {α : Type} {c : α} {p A B : List α}
    (hc : c ∉ p) (h : p <:+: A ++ c :: B) : p <:+: A ∨ p <:+: B := by
  induction A with
  | nil =>
    rw [List.nil_append, List.infix_cons_iff] at h
    rcases h with h | h
    · left
      have := prefix_of_not_mem (A := []) hc (by simpa using h)
      exact this.isInfix
    · exact Or.inr h
  | cons a A ih =>
    rw [List.cons_append, List.infix_cons_iff] at h
    rcases h with h | h
    · left
      have : p <+: (a :: A) ++ c :: B := by simpa using h
      exact (prefix_of_not_mem hc this).isInfix
    · rcases ih h with h | h
      · exact Or.inl (List.infix_cons h)
      · exact Or.inr h

theorem infix_of_head_not_mem {α : Type} {c : α} {p A B : List α}
    (hc : c ∉ A) (h : (c :: p) <:+: A ++ B) : (c :: p) <:+: B := by
  induction A with
  | nil => simpa using h
  | cons a A ih =>
    rw [List.cons_append, List.infix_cons_iff] at h
    rcases h with h | h
    · exfalso
      rw [List.cons_prefix_cons] at h
      exact hc (by simp [h.1])
    · exact ih (fun hm => hc (List.mem_cons_of_mem _ hm)) h

theorem infix_split_head_only {α : Type} {c : α} {p A B : List α}
    (hc : c ∉ p) (h : (c :: p) <:+: A ++ c :: B) :
    (c :: p) <:+: A ∨ (c :: p) <+: c :: B ∨ (c :: p) <:+: B := by
  induction A with
  | nil =>
    rw [List.nil_append, List.infix_cons_iff] at h
    exact Or.inr h
  | cons a A ih =>
    rw [List.cons_append, List.infix_cons_iff] at h
    rcases h with h | h
    · left
      rw [List.cons_prefix_cons] at h
      have hp : p <+: A := prefix_of_not_mem hc h.2
      have : (c :: p) <+: a :: A := by
        rw [List.cons_prefix_cons]; exact ⟨h.1, hp⟩
      exact this.isInfix
    · rcases ih h with h | h
      · exact Or.inl (List.infix_cons h)
      · exact Or.inr h

theorem infix_Join {p : List Char} (hp : p ≠ []) (hc : ',' ∉ p) (E : List String)
    (h : p <:+: (Join E ",").data) : ∃ e ∈ E, p <:+: e.data := by
  induction E with
  | nil =>
    exfalso
    have : p <:+: [] := h
    exact hp (List.infix_nil.mp this)
  | cons e E ih =>
    cases E with
    | nil => exact ⟨e, by simp, h⟩
    | cons f E =>
      rw [Join_cons_cons] at h
      have h2 : p <:+: e.data ++ ',' :: (Join (f :: E) ",").data := by
        simpa [String.data_append] using h
      rcases infix_split_of_not_mem hc h2 with h3 | h3
      · exact ⟨e, by simp, h3⟩
      · obtain ⟨x, hx, hpx⟩ := ih h3
        exact ⟨x, List.mem_cons_of_mem _ hx, hpx⟩

theorem buildURL_data (r : ApiRequest) :
    (buildURL r).data = url.data ++ ('/' :: (r.Key.data ++ ('/' :: (r.Lat.data ++ (',' ::
      (r.Long.data ++ ('?' :: ("units=".data ++ ((unitsValue r).data ++
        ((excludePart r).data ++ (langPart r).data)))))))))) := by
  rw [buildURL_norm]
  simp [String.data_append]

theorem split_unique {α : Type} {c : α} {a1 a2 b1 b2 : List α}
    (h1 : c ∉ a1) (h2 : c ∉ a2) (h : a1 ++ c :: b1 = a2 ++ c :: b2) : a1 = a2 ∧ b1 = b2 := by
  induction a1 generalizing a2 with
  | nil =>
    cases a2 with
    | nil => simpa using h
    | cons x a2 =>
      exfalso
      simp at h
      exact h2 (by simp [h.1])
  | cons y a1 ih =>
    cases a2 with
    | nil =>
      exfalso
      simp at h
      exact h1 (by simp [h.1])
    | cons x a2 =>
      simp only [List.cons_append, List.cons.injEq] at h
      have := ih (fun hm => h1 (List.mem_cons_of_mem _ hm))
        (fun hm => h2 (List.mem_cons_of_mem _ hm)) h.2
      exact ⟨by rw [h.1, this.1], this.2⟩

theorem split_unique_end {α : Type} {c : α} {a1 a2 b1 b2 : List α}
    (h1 : c ∉ a1) (h2 : c ∉ a2) (hb1 : b1 = [] ∨ ∃ t, b1 = c :: t) (hb2 : b2 = [] ∨ ∃ t, b2 = c :: t)
    (h : a1 ++ b1 = a2 ++ b2) : a1 = a2 ∧ b1 = b2 := by
  rcases hb1 with rfl | ⟨t1, rfl⟩ <;> rcases hb2 with rfl | ⟨t2, rfl⟩
  · simpa using h
  · exfalso
    simp only [List.append_nil] at h
    exact h1 (by rw [h]; simp)
  · exfalso
    simp only [List.append_nil] at h
    exact h2 (by rw [← h]; simp)
  · have := split_unique h1 h2 h
    exact ⟨this.1, by rw [this.2]⟩

theorem mem_Join {c : Char} (E : List String) (h : c ∈ (Join E ",").data) :
    c = ',' ∨ ∃ e ∈ E, c ∈ e.data := by
  induction E with
  | nil => simp [Join] at h
  | cons e E ih =>
    cases E with
    | nil => exact Or.inr ⟨e, by simp, h⟩
    | cons f E =>
      rw [Join_cons_cons] at h
      simp only [String.data_append, List.mem_append] at h
      rcases h with (h | h) | h
      · exact Or.inr ⟨e, by simp, h⟩
      · left
        have : c ∈ [','] := h
        simpa using this
      · rcases ih h with h | ⟨x, hx, hcx⟩
        · exact Or.inl h
        · exact Or.inr ⟨x, List.mem_cons_of_mem _ hx, hcx⟩

theorem Join_injective {E1 E2 : List String} (hE1 : ∀ e ∈ E1, ',' ∉ e.data)
    (hE2 : ∀ e ∈ E2, ',' ∉ e.data) (hn1 : E1 ≠ []) (hn2 : E2 ≠ [])
    (h : (Join E1 ",").data = (Join E2 ",").data) : E1 = E2 := by
  induction E1 generalizing E2 with
  | nil => exact absurd rfl hn1
  | cons e1 E1 ih =>
    cases E2 with
    | nil => exact absurd rfl hn2
    | cons e2 E2 =>
      cases E1 with
      | nil =>
        cases E2 with
        | nil =>
          have : e1 = e2 := String.ext h
          rw [this]
        | cons f2 E2 =>
          exfalso
          rw [Join_cons_cons] at h
          have h : e1.data = e2.data ++ ',' :: (Join (f2 :: E2) ",").data := by
            simpa [String.data_append, Join] using h
          exact hE1 e1 (by simp) (by rw [h]; simp)
      | cons f1 E1 =>
        cases E2 with
        | nil =>
          exfalso
          rw [Join_cons_cons] at h
          have h : e1.data ++ ',' :: (Join (f1 :: E1) ",").data = e2.data := by
            simpa [String.data_append, Join] using h
          exact hE2 e2 (by simp) (by rw [← h]; simp)
        | cons f2 E2 =>
          rw [Join_cons_cons, Join_cons_cons] at h
          have h : e1.data ++ ',' :: (Join (f1 :: E1) ",").data
              = e2.data ++ ',' :: (Join (f2 :: E2) ",").data := by
            simpa [String.data_append] using h
          have h3 := split_unique (hE1 e1 (by simp)) (hE2 e2 (by simp)) h
          have h4 := @ih (f2 :: E2) (fun e he => hE1 e (List.mem_cons_of_mem _ he))
            (fun e he => hE2 e (List.mem_cons_of_mem _ he)) (by simp) (by simp) h3.2
          rw [String.ext h3.1, h4]

theorem infix_query_of_infix_buildURL (r : ApiRequest) {p : List Char}
    (h1 : '/' ∉ p) (h2 : ',' ∉ p) (h3 : '?' ∉ p) (hurl : ¬ p <:+: url.data)
    (hK : ¬ p <:+: r.Key.data) (hLat : ¬ p <:+: r.Lat.data) (hLong : ¬ p <:+: r.Long.data)
    (h : p <:+: (buildURL r).data) :
    p <:+: "units=".data ++ ((unitsValue r).data ++
      ((excludePart r).data ++ (langPart r).data)) := by
  rw [buildURL_data] at h
  rcases infix_split_of_not_mem h1 h with h | h
  · exact absurd h hurl
  rcases infix_split_of_not_mem h1 h with h | h
  · exact absurd h hK
  rcases infix_split_of_not_mem h2 h with h | h
  · exact absurd h hLat
  rcases infix_split_of_not_mem h3 h with h | h
  · exact absurd h hLong
  exact h

theorem not_infix_unitsValue (r : ApiRequest) {p : List Char}
    (hauto : ¬ p <:+: "auto".data) (hU : ¬ p <:+: r.Units.data) :
    ¬ p <:+: (unitsValue r).data := by
  unfold unitsValue
  split
  · exact hauto
  · exact hU

theorem langPart_shape (r : ApiRequest) :
    ((langPart r).data = [] ∧ r.Lang = "") ∨
    ((langPart r).data = '&' :: ("lang=".data ++ r.Lang.data) ∧ r.Lang ≠ "") := by
  unfold langPart
  by_cases h : r.Lang = ""
  · left; simp [h]
  · right; simp [h, String.data_append]

theorem excludePart_shape (r : ApiRequest) :
    ((excludePart r).data = [] ∧ r.Exclude = []) ∨
    ((excludePart r).data = '&' :: ("exclude=".data ++ (Join r.Exclude ",").data)
      ∧ r.Exclude ≠ []) := by
  unfold excludePart
  by_cases h : r.Exclude = []
  · left; simp [h]
  · right; simp [h, String.data_append]

theorem amp_not_mem_Join (r : ApiRequest) (h : URLSafe r) :
    '&' ∉ (Join r.Exclude ",").data := by
  intro hm
  rcases mem_Join r.Exclude hm with hc | ⟨e, he, hce⟩
  · exact absurd hc (by decide)
  · exact (h.2.2.2.2.2 e he).2.2.2 hce

theorem tail_injective (r1 r2 : ApiRequest) (h1 : URLSafe r1) (h2 : URLSafe r2)
    (h : (excludePart r1).data ++ (langPart r1).data
      = (excludePart r2).data ++ (langPart r2).data) :
    r1.Lang = r2.Lang ∧ r1.Exclude = r2.Exclude := by
  have hlang : (langPart r1).data = (langPart r2).data → r1.Lang = r2.Lang := by
    intro hl
    rcases langPart_shape r1 with ⟨a1, b1⟩ | ⟨a1, b1⟩ <;>
      rcases langPart_shape r2 with ⟨a2, b2⟩ | ⟨a2, b2⟩
    · rw [b1, b2]
    · rw [a1, a2] at hl; simp at hl
    · rw [a1, a2] at hl; simp at hl
    · rw [a1, a2] at hl
      apply String.ext
      simpa using hl
  have hls : ∀ r : ApiRequest, (langPart r).data = [] ∨ ∃ t, (langPart r).data = '&' :: t := by
    intro r
    rcases langPart_shape r with ⟨a, _⟩ | ⟨a, _⟩
    · exact Or.inl a
    · exact Or.inr ⟨_, a⟩
  rcases excludePart_shape r1 with ⟨e1, n1⟩ | ⟨e1, n1⟩ <;>
    rcases excludePart_shape r2 with ⟨e2, n2⟩ | ⟨e2, n2⟩
  · rw [e1, e2] at h
    exact ⟨hlang (by simpa using h), by rw [n1, n2]⟩
  · exfalso
    rw [e1, e2] at h
    rcases langPart_shape r1 with ⟨a1, _⟩ | ⟨a1, _⟩ <;> rw [a1] at h <;> simp at h
  · exfalso
    rw [e1, e2] at h
    rcases langPart_shape r2 with ⟨a2, _⟩ | ⟨a2, _⟩ <;> rw [a2] at h <;> simp at h
  · rw [e1, e2] at h
    have h' : (Join r1.Exclude ",").data ++ (langPart r1).data
        = (Join r2.Exclude ",").data ++ (langPart r2).data := by
      simpa using h
    have h3 := split_unique_end (amp_not_mem_Join r1 h1) (amp_not_mem_Join r2 h2)
      (hls r1) (hls r2) h'
    refine ⟨hlang h3.2, ?_⟩
    exact Join_injective (fun e he => (h1.2.2.2.2.2 e he).2.1)
      (fun e he => (h2.2.2.2.2.2 e he).2.1) n1 n2 h3.1

theorem tail_shape (r : ApiRequest) :
    (excludePart r).data ++ (langPart r).data = [] ∨
    ∃ t, (excludePart r).data ++ (langPart r).data = '&' :: t := by
  rcases excludePart_shape r with ⟨e, _⟩ | ⟨e, _⟩
  · rw [e]
    rcases langPart_shape r with ⟨a, _⟩ | ⟨a, _⟩
    · left; simp [a]
    · right; exact ⟨"lang=".data ++ r.Lang.data, by simp [a]⟩
  · right
    rw [e]
    exact ⟨("exclude=".data ++ (Join r.Exclude ",").data) ++ (langPart r).data, by simp⟩

theorem dropWhile_ne_append {c : Char} {A B : List Char} (h : c ∉ A) :
    (A ++ c :: B).dropWhile (fun x => x != c) = c :: B := by
  induction A with
  | nil => simp [List.dropWhile]
  | cons a A ih =>
    have hne : a ≠ c := fun e => h (by simp [e])
    have : (a != c) = true := by simpa using hne
    simp only [List.cons_append, List.dropWhile_cons, this, if_true]
    exact ih (fun hm => h (List.mem_cons_of_mem _ hm))

theorem takeWhile_ne_append {c : Char} {A : List Char} (B : List Char) (h : c ∉ A) :
    (A ++ B).takeWhile (fun x => x != c) = A ++ B.takeWhile (fun x => x != c) := by
  induction A with
  | nil => rfl
  | cons a A ih =>
    have hne : a ≠ c := fun e => h (by simp [e])
    have : (a != c) = true := by simpa using hne
    simp only [List.cons_append, List.takeWhile_cons, this, if_true]
    rw [ih (fun hm => h (List.mem_cons_of_mem _ hm))]

theorem hash_not_mem_unitsValue (r : ApiRequest) (h : Avoids r.Units '#') :
    '#' ∉ (unitsValue r).data := by
  unfold unitsValue
  split
  · decide
  · exact h

theorem queryString_buildURL (r : ApiRequest)
    (hK : Avoids r.Key '?') (hLat : Avoids r.Lat '?') (hLong : Avoids r.Long '?')
    (hK2 : Avoids r.Key '#') (hLat2 : Avoids r.Lat '#') (hLong2 : Avoids r.Long '#')
    (hU2 : Avoids r.Units '#') :
    queryString (buildURL r) = "units=".data ++ ((unitsValue r).data ++
      ((excludePart r).data ++ (langPart r).data).takeWhile (fun c => c != '#')) := by
  have hA : '?' ∉ url.data ++ ('/' :: (r.Key.data ++ ('/' :: (r.Lat.data ++ (',' :: r.Long.data))))) := by
    unfold Avoids at hK hLat hLong
    have hu : '?' ∉ url.data := by decide
    simp only [List.mem_append, List.mem_cons, not_or]
    exact ⟨hu, by decide, hK, by decide, hLat, by decide, hLong⟩
  have hB : '#' ∉ url.data ++ ('/' :: (r.Key.data ++ ('/' :: (r.Lat.data ++ (',' :: r.Long.data))))) := by
    unfold Avoids at hK2 hLat2 hLong2
    have hu : '#' ∉ url.data := by decide
    simp only [List.mem_append, List.mem_cons, not_or]
    exact ⟨hu, by decide, hK2, by decide, hLat2, by decide, hLong2⟩
  have hV : '#' ∉ "units=".data ++ (unitsValue r).data := by
    simp only [List.mem_append, not_or]
    exact ⟨by decide, hash_not_mem_unitsValue r hU2⟩
  have hd : (buildURL r).data
      = (url.data ++ ('/' :: (r.Key.data ++ ('/' :: (r.Lat.data ++ (',' :: r.Long.data))))))
        ++ ('?' :: (("units=".data ++ (unitsValue r).data)
          ++ ((excludePart r).data ++ (langPart r).data))) := by
    rw [buildURL_data]
    simp only [List.append_assoc, List.cons_append]
  unfold queryString
  rw [hd, takeWhile_ne_append _ hB]
  have hq : (('?' != '#') = true) := by decide
  rw [List.takeWhile_cons, hq, if_pos rfl, takeWhile_ne_append _ hV, dropWhile_ne_append hA]
  simp only [List.drop_succ_cons, List.drop_zero, List.append_assoc]

theorem tail_cut_shape (r : ApiRequest) :
    ((excludePart r).data ++ (langPart r).data).takeWhile (fun c => c != '#') = [] ∨
    ∃ t, ((excludePart r).data ++ (langPart r).data).takeWhile (fun c => c != '#') = '&' :: t := by
  rcases tail_shape r with ht | ⟨t, ht⟩
  · left; rw [ht]; rfl
  · right
    rw [ht]
    have hq : (('&' != '#') = true) := by decide
    exact ⟨t.takeWhile (fun c => c != '#'), by rw [List.takeWhile_cons, hq, if_pos rfl]⟩

theorem countOcc_eq_zero {p : List Char} (hp : p ≠ []) (l : List Char) (h : ¬ p <:+: l) :
    countOcc p l = 0 := by
  induction l with
  | nil =>
    have : ¬ p <+: [] := fun hh => hp (List.prefix_nil.mp hh)
    simp [countOcc, this]
  | cons x xs ih =>
    have h1 : ¬ p <+: x :: xs := fun hh => h hh.isInfix
    have h2 : ¬ p <:+: xs := fun hh => h (List.infix_cons hh)
    simp [countOcc, h1, ih h2]

theorem splitOn_of_not_mem {c : Char} {A : List Char} (h : c ∉ A) : A.splitOn c = [A] := by
  induction A with
  | nil => rfl
  | cons a A ih =>
    have hne : a ≠ c := fun e => h (by simp [e])
    have ih := ih (fun hm => h (List.mem_cons_of_mem _ hm))
    unfold List.splitOn at ih ⊢
    rw [List.splitOnP_cons, ih]
    simp [hne, List.modifyHead]

theorem splitOn_append_sep {c : Char} {A B : List Char} (h : c ∉ A) :
    (A ++ c :: B).splitOn c = A :: B.splitOn c := by
  induction A with
  | nil =>
    unfold List.splitOn
    rw [List.nil_append, List.splitOnP_cons]
    simp
  | cons a A ih =>
    have hne : a ≠ c := fun e => h (by simp [e])
    have ih := ih (fun hm => h (List.mem_cons_of_mem _ hm))
    unfold List.splitOn at ih ⊢
    rw [List.cons_append, List.splitOnP_cons, ih]
    simp [hne, List.modifyHead]

theorem splitOn_pieces (c : Char) (B : List Char) :
    (∀ s ∈ B.splitOn c, s <:+: B) ∧ ∃ h t, B.splitOn c = h :: t ∧ h <+: B := by
  induction B with
  | nil =>
    refine ⟨?_, [], [], rfl, List.prefix_refl _⟩
    intro s hs
    have : s = [] := by simpa [List.splitOn, List.splitOnP_nil] using hs
    rw [this]
  | cons x xs ih =>
    obtain ⟨ih1, h, t, hs, hpre⟩ := ih
    unfold List.splitOn at ih1 hs ⊢
    rw [List.splitOnP_cons]
    by_cases hx : (x == c) = true
    · simp only [hx, if_true]
      refine ⟨?_, [], _, rfl, List.nil_prefix⟩
      intro s hs'
      rcases List.mem_cons.mp hs' with rfl | hm
      · exact List.nil_infix
      · exact List.infix_cons (ih1 s hm)
    · simp only [hx]
      rw [hs]
      simp only [List.modifyHead, Bool.false_eq_true, if_false]
      refine ⟨?_, x :: h, t, rfl, ?_⟩
      · intro s hs'
        rcases List.mem_cons.mp hs' with rfl | hm
        · exact (List.cons_prefix_cons.mpr ⟨rfl, hpre⟩).isInfix
        · exact List.infix_cons (ih1 s (by rw [hs]; exact List.mem_cons_of_mem _ hm))
      · exact List.cons_prefix_cons.mpr ⟨rfl, hpre⟩

theorem no_units_in_rest (r : ApiRequest) (hU : ¬ Contains r.Units "units=")
    (hL : ¬ Contains r.Lang "units=") (hE : ∀ e ∈ r.Exclude, ¬ Contains e "units=") :
    ¬ "units=".data <:+: (unitsValue r).data ++ ((excludePart r).data ++ (langPart r).data) := by
  have hV := not_infix_unitsValue r (p := "units=".data) (by decide) hU
  have hLP : ¬ "units=".data <:+: (langPart r).data := by
    intro h
    rcases langPart_shape r with ⟨a, _⟩ | ⟨a, _⟩
    · rw [a] at h; exact absurd h (by decide)
    · rw [a] at h
      rcases infix_split_of_not_mem (A := []) (by decide) h with h | h
      · exact absurd h (by decide)
      · exact hL (infix_of_head_not_mem (c := 'u') (p := "nits=".data) (A := "lang=".data)
          (by decide) h)
  intro h
  rcases excludePart_shape r with ⟨e, _⟩ | ⟨e, _⟩
  · rw [e, List.nil_append] at h
    rcases langPart_shape r with ⟨a, _⟩ | ⟨a, _⟩
    · rw [a, List.append_nil] at h; exact hV h
    · rw [a] at h
      rcases infix_split_of_not_mem (by decide) h with h | h
      · exact hV h
      · exact hLP (by rw [a]; exact List.infix_cons h)
  · rw [e, List.cons_append] at h
    rcases infix_split_of_not_mem (by decide) h with h | h
    · exact hV h
    · have h : ('u' :: "nits=".data) <:+: "excl".data ++
          ('u' :: ("de=".data ++ ((Join r.Exclude ",").data ++ (langPart r).data))) := by
        simpa using h
      have h := infix_of_head_not_mem (A := "excl".data) (by decide) h
      rw [List.infix_cons_iff] at h
      rcases h with h | h
      · rw [List.cons_prefix_cons] at h
        have h2 := h.2
        simp at h2
      · have h := infix_of_head_not_mem (A := "de=".data) (by decide) h
        rcases langPart_shape r with ⟨a, _⟩ | ⟨a, _⟩
        · rw [a, List.append_nil] at h
          obtain ⟨x, hx, hpx⟩ := infix_Join (p := "units=".data) (by decide) (by decide) r.Exclude h
          exact hE x hx hpx
        · have hLP' := hLP
          rw [a] at h hLP'
          rcases infix_split_of_not_mem (by decide) h with h | h
          · obtain ⟨x, hx, hpx⟩ := infix_Join (p := "units=".data) (by decide) (by decide)
              r.Exclude h
            exact hE x hx hpx
          · exact hLP' (List.infix_cons h)

theorem amp_not_mem_unitsValue (r : ApiRequest) (h : Avoids r.Units '&') :
    '&' ∉ (unitsValue r).data := by
  unfold unitsValue
  split
  · decide
  · exact h

/-! ## Facts about the decoder -/

theorem firstError_none {E : Type} (e : Option E) : firstError none e = e := rfl

mutual
theorem decodeValue_fits {Body F E : Type} (lib : JsonLib Body F E) :
    ∀ (j : JSON) (t : GoType) (old : GoVal F), fits lib j t = true →
      (decodeValue lib j t old).2 = none
  | .null, t, old, _ => by cases t <;> simp [decodeValue]
  | .bool _, t, old, h => by simp [fits] at h
  | .number lit, t, old, h => by
    cases t with
    | int =>
      simp only [fits] at h
      obtain ⟨n, hn⟩ := Option.isSome_iff_exists.mp h
      simp [decodeValue, hn]
    | float64 =>
      simp only [fits] at h
      obtain ⟨n, hn⟩ := Option.isSome_iff_exists.mp h
      simp [decodeValue, hn]
    | string => simp [fits] at h
    | slice e => simp [fits] at h
    | struct n fs => simp [fits] at h
  | .string s, t, old, h => by
    cases t with
    | string => simp [decodeValue]
    | float64 => simp [fits] at h
    | int => simp [fits] at h
    | slice e => simp [fits] at h
    | struct n fs => simp [fits] at h
  | .array elems, t, old, h => by
    cases t with
    | slice e =>
      simp only [fits] at h
      simp only [decodeValue]
      exact decodeElems_fits lib elems e h
    | float64 => simp [fits] at h
    | int => simp [fits] at h
    | string => simp [fits] at h
    | struct n fs => simp [fits] at h
  | .object members, t, old, h => by
    cases t with
    | struct n fs =>
      simp only [fits] at h
      simp only [decodeValue]
      exact decodeMembers_fits lib members fs old.fields h
    | float64 => simp [fits] at h
    | int => simp [fits] at h
    | string => simp [fits] at h
    | slice e => simp [fits] at h
theorem decodeElems_fits {Body F E : Type} (lib : JsonLib Body F E) :
    ∀ (js : List JSON) (elem : GoType), fitsElems lib js elem = true →
      (decodeElems lib js elem).2 = none
  | [], _, _ => by simp [decodeElems]
  | j :: js, elem, h => by
    simp only [fitsElems, Bool.and_eq_true] at h
    simp only [decodeElems]
    rw [decodeValue_fits lib j elem _ h.1, decodeElems_fits lib js elem h.2]
    rfl
theorem decodeMembers_fits {Body F E : Type} (lib : JsonLib Body F E) :
    ∀ (ms : List (String × JSON)) (fields : List (String × String × GoType))
      (vals : List (String × GoVal F)), fitsMembers lib ms fields = true →
      (decodeMembers lib ms fields vals).2 = none
  | [], _, _, _ => by simp [decodeMembers]
  | (key, j) :: ms, fields, vals, h => by
    simp only [fitsMembers, Bool.and_eq_true] at h
    simp only [decodeMembers]
    cases hf : findField lib.equalFold fields key with
    | none =>
      simp only
      exact decodeMembers_fits lib ms fields vals h.2
    | some f =>
      obtain ⟨name, k, t⟩ := f
      simp only [hf] at h
      simp only
      rw [decodeValue_fits lib j t _ h.1, decodeMembers_fits lib ms fields _ h.2]
      rfl
end


theorem decodeMembers_filter {Body F E : Type} (lib : JsonLib Body F E)
    (fields : List (String × String × GoType)) (ms : List (String × JSON))
    (vals : List (String × GoVal F)) :
    decodeMembers lib (ms.filter (fun m => (findField lib.equalFold fields m.1).isSome))
      fields vals = decodeMembers lib ms fields vals := by
  induction ms generalizing vals with
  | nil => rfl
  | cons m ms ih =>
    obtain ⟨key, j⟩ := m
    cases hf : findField lib.equalFold fields key with
    | none =>
      simp only [List.filter_cons, hf, Option.isSome_none, Bool.false_eq_true, if_false,
        decodeMembers]
      exact ih vals
    | some f =>
      obtain ⟨name, k, t⟩ := f
      simp only [List.filter_cons, hf, Option.isSome_some, if_true, decodeMembers]
      rw [ih]

theorem decodeMembers_unmatched {Body F E : Type} (lib : JsonLib Body F E)
    (fields : List (String × String × GoType)) (ms : List (String × JSON))
    (vals : List (String × GoVal F))
    (h : ∀ m ∈ ms, findField lib.equalFold fields m.1 = none) :
    decodeMembers lib ms fields vals = (vals, none) := by
  induction ms with
  | nil => rfl
  | cons m ms ih =>
    obtain ⟨key, j⟩ := m
    have hf : findField lib.equalFold fields key = none := h (key, j) (by simp)
    simp only [decodeMembers, hf]
    exact ih (fun m hm => h m (List.mem_cons_of_mem _ hm))

theorem getField_setField_ne {F : Type} (vals : List (String × GoVal F)) (n name : String)
    (v : GoVal F) (hne : name ≠ n) :
    getField (setField vals n v) name = getField vals name := by
  unfold getField setField
  induction vals with
  | nil => rfl
  | cons p vals ih =>
    obtain ⟨k, w⟩ := p
    have hhead : (if (k, w).1 = n then ((k, w).1, v) else (k, w))
        = (k, if k = n then v else w) := by
      by_cases hk : k = n <;> simp [hk]
    rw [List.map_cons, hhead, List.lookup_cons, List.lookup_cons, ih]
    by_cases hk : k = n
    · have h1 : (name == k) = false := by rw [hk]; simpa using hne
      rw [h1]
    · rw [if_neg hk]

theorem findField_mem {ef : String → String → Bool} {fields : List (String × String × GoType)}
    {key : String} {f : String × String × GoType} (h : findField ef fields key = some f) :
    f ∈ fields := by
  unfold findField at h
  split at h
  · next g hg =>
    have : g = f := by simpa using h
    rw [← this]
    exact List.mem_of_find?_eq_some hg
  · exact List.mem_of_find?_eq_some h

theorem decodeMembers_getField {Body F E : Type} (lib : JsonLib Body F E)
    (fields : List (String × String × GoType)) (name : String) (ms : List (String × JSON))
    (vals : List (String × GoVal F))
    (h : ∀ m ∈ ms, ∀ f, findField lib.equalFold fields m.1 = some f → f.1 ≠ name) :
    getField (decodeMembers lib ms fields vals).1 name = getField vals name := by
  induction ms generalizing vals with
  | nil => rfl
  | cons m ms ih =>
    obtain ⟨key, j⟩ := m
    have ih := fun vals => ih vals (fun m hm => h m (List.mem_cons_of_mem _ hm))
    cases hf : findField lib.equalFold fields key with
    | none =>
      simp only [decodeMembers, hf]
      exact ih vals
    | some f =>
      obtain ⟨n, k, t⟩ := f
      have hne : name ≠ n := fun e => h (key, j) (by simp) (n, k, t) hf e.symm
      simp only [decodeMembers, hf]
      rw [ih, getField_setField_ne _ _ _ _ hne]

theorem Forecast_field_names_nodup : (Schema.Forecast.fields.map (fun f => f.1)).Nodup := by
  decide

theorem getField_zero_Forecast {F : Type} (z : F) (fld : String × String × GoType)
    (h : fld ∈ Schema.Forecast.fields) :
    getField (zeroFields z Schema.Forecast.fields) fld.1 = some (fld.2.2.zero z) := by
  simp only [Schema.Forecast, GoType.fields, List.mem_cons, List.mem_singleton,
    List.not_mem_nil, or_false] at h
  rcases h with rfl | rfl | rfl | rfl | rfl | rfl | rfl | rfl <;> rfl

theorem decodeBody_object {Body F E : Type} (lib : JsonLib Body F E) (reader : Body)
    (members : List (String × JSON)) (h : lib.readValue reader = .ok (.object members)) :
    decodeBody lib reader =
      match decodeMembers lib members Schema.Forecast.fields
          (zeroFields lib.zeroFloat Schema.Forecast.fields) with
      | (_, some err) =>
        { trace := [.decode, .logError "[ERROR] decoding json:" err],
          forecast := none, err := some err }
      | (vals, none) =>
        { trace := [.decode], forecast := some (.struct vals), err := none } := by
  unfold decodeBody decodeJSON Decode
  simp only [h]
  have hz : (Schema.Forecast.zero lib.zeroFloat : GoVal F).fields
      = zeroFields lib.zeroFloat Schema.Forecast.fields := rfl
  have hd : ∀ old : GoVal F, decodeValue lib (.object members) Schema.Forecast old
      = (.struct (decodeMembers lib members Schema.Forecast.fields old.fields).1,
         (decodeMembers lib members Schema.Forecast.fields old.fields).2) := by
    intro old
    simp [Schema.Forecast, decodeValue, GoType.fields]
  rw [hd, hz]
  rcases decodeMembers lib members Schema.Forecast.fields
    (zeroFields lib.zeroFloat Schema.Forecast.fields) with ⟨vals, _ | err⟩ <;> rfl

theorem findField_minutely {Body F E : Type} (lib : JsonLib Body F E)
    (hfold : ∀ fld ∈ Schema.Forecast.fields, lib.equalFold fld.2.1 "minutely" = false) :
    findField lib.equalFold Schema.Forecast.fields "minutely" = none := by
  have h1 : Schema.Forecast.fields.find? (fun f => f.2.1 = "minutely") = none := rfl
  unfold findField
  rw [h1]
  simp only
  rw [List.find?_eq_none]
  intro fld hfld
  simp [hfold fld hfld]

/-- Two documents that differ only in the value of their `minutely` member decode to the
same outcome, for every library whose case folding does not identify `minutely` with the
key of a `Forecast` field. -/
theorem decodeBody_minutely_irrelevant {Body F E : Type} (lib : JsonLib Body F E)
    (hfold : ∀ fld ∈ Schema.Forecast.fields, lib.equalFold fld.2.1 "minutely" = false)
    (r1 r2 : Body) (ms1 ms2 : List (String × JSON)) (v1 v2 : JSON)
    (h1 : lib.readValue r1 = .ok (.object (ms1 ++ ("minutely", v1) :: ms2)))
    (h2 : lib.readValue r2 = .ok (.object (ms1 ++ ("minutely", v2) :: ms2))) :
    decodeBody lib r1 = decodeBody lib r2 := by
  have hm := findField_minutely lib hfold
  rw [decodeBody_object lib r1 _ h1, decodeBody_object lib r2 _ h2]
  rw [← decodeMembers_filter lib _ (ms1 ++ ("minutely", v1) :: ms2),
    ← decodeMembers_filter lib _ (ms1 ++ ("minutely", v2) :: ms2)]
  simp only [List.filter_append, List.filter_cons, hm, Option.isSome_none, Bool.false_eq_true,
    if_false]

/-- C1: `buildURL` is exactly the base endpoint, `/`, the key, `/`, the latitude, `,`,
the longitude, `?units=` with the units (or `auto` when empty), then `&exclude=` with
the entries joined by `,` in their order when the list is non-empty, then `&lang=` with
the language when it is non-empty; every component is copied verbatim. -/
theorem C1_buildURL_exact (r : ApiRequest) :
    buildURL r =
      "https://api.darksky.net/forecast" ++ "/" ++ r.Key ++ "/" ++ r.Lat ++ "," ++ r.Long
        ++ "?units=" ++ (if r.Units ≠ "" then r.Units else "auto")
        ++ (if r.Exclude ≠ [] then "&exclude=" ++ ",".intercalate r.Exclude else "")
        ++ (if r.Lang ≠ "" then "&lang=" ++ r.Lang else "") := by
  rw [buildURL_norm]
  unfold unitsValue excludePart langPart url
  rw [Join_eq_intercalate]
  by_cases hu : r.Units = "" <;> by_cases he : r.Exclude = [] <;> by_cases hl : r.Lang = "" <;>
    simp [hu, he, hl]

/-- C2, as stated, fails: a language code that carries `&units=si` gives a query string
with two `units=` parameters and two occurrences of `units=`. -/
theorem C2_counterexample :
    (queryParams (queryString (buildURL { Lat := "1", Long := "2", Key := "k", Exclude := [], Lang := "en&units=si", Units := "" }))).filter
        (fun p => "units=".data.isPrefixOf p) = ["units=auto".data, "units=si".data] ∧
    countOcc "units=".data
        (queryString (buildURL { Lat := "1", Long := "2", Key := "k", Exclude := [], Lang := "en&units=si", Units := "" })) = 2 := by
  decide

/-- C2 (amended): if `Key`, `Lat` and `Long` contain neither `?` nor `#`, `Units` contains
neither `&` nor `#`, and none of `Units`, `Lang` and the entries of `Exclude` contains
`units=`, then the query string of `buildURL` has exactly one parameter starting with
`units=`, its value is `Units` (or `auto` when `Units` is empty), and `units=` occurs
exactly once in the query string. -/
theorem C2_units_param (r : ApiRequest)
    (hK : Avoids r.Key '?') (hLat : Avoids r.Lat '?') (hLong : Avoids r.Long '?')
    (hK2 : Avoids r.Key '#') (hLat2 : Avoids r.Lat '#') (hLong2 : Avoids r.Long '#')
    (hUa : Avoids r.Units '&') (hU2 : Avoids r.Units '#') (hU : ¬ Contains r.Units "units=")
    (hL : ¬ Contains r.Lang "units=") (hE : ∀ e ∈ r.Exclude, ¬ Contains e "units=") :
    (queryParams (queryString (buildURL r))).filter (fun p => "units=".data.isPrefixOf p)
        = ["units=".data ++ (if r.Units = "" then "auto" else r.Units).data] ∧
    countOcc "units=".data (queryString (buildURL r)) = 1 := by
  have hq := queryString_buildURL r hK hLat hLong hK2 hLat2 hLong2 hU2
  have hno0 := no_units_in_rest r hU hL hE
  have hno : ¬ "units=".data <:+: (unitsValue r).data ++
      ((excludePart r).data ++ (langPart r).data).takeWhile (fun c => c != '#') := by
    intro h
    apply hno0
    exact List.IsInfix.trans h
      ((List.prefix_append_right_inj _).mpr (List.takeWhile_prefix _)).isInfix
  have hamp := amp_not_mem_unitsValue r hUa
  rw [hq]
  constructor
  · have hhead : '&' ∉ "units=".data ++ (unitsValue r).data := by
      simp only [List.mem_append, not_or]
      exact ⟨by decide, hamp⟩
    have hpre : "units=".data.isPrefixOf ("units=".data ++ (unitsValue r).data) = true :=
      List.isPrefixOf_iff_prefix.mpr (List.prefix_append _ _)
    unfold queryParams
    rcases tail_cut_shape r with ht | ⟨t, ht⟩
    · rw [ht, List.append_nil, splitOn_of_not_mem hhead]
      simp only [List.filter_cons, hpre, if_true, List.filter_nil]
      rfl
    · rw [ht] at hno
      rw [ht, ← List.append_assoc, splitOn_append_sep hhead]
      simp only [List.filter_cons, hpre, if_true]
      have : (t.splitOn '&').filter (fun p => "units=".data.isPrefixOf p) = [] := by
        rw [List.filter_eq_nil_iff]
        intro s hs hp
        have h1 : "units=".data <+: s := List.isPrefixOf_iff_prefix.mp hp
        have h2 : s <:+: t := (splitOn_pieces '&' t).1 s hs
        apply hno
        have h3 : "units=".data <:+: t := List.IsInfix.trans h1.isInfix h2
        exact List.IsInfix.trans h3
          (List.IsSuffix.isInfix ⟨(unitsValue r).data ++ ['&'], by simp⟩)
      rw [this]
      rfl
  · have h0 := countOcc_eq_zero (p := "units=".data) (by decide) _ hno
    have e : "units=".data = ['u', 'n', 'i', 't', 's', '='] := rfl
    rw [e] at h0 ⊢
    simp [countOcc, List.cons_prefix_cons, h0]

/-- C2 (witness): the amended statement at a request with units, an exclude list and a
language code that carries a fragment. -/
theorem C2_units_param_witness :
    (queryParams (queryString (buildURL { Lat := "1", Long := "2", Key := "k", Exclude := ["hourly", "daily"], Lang := "en#top", Units := "si" }))).filter
        (fun p => "units=".data.isPrefixOf p) = ["units=si".data] ∧
    countOcc "units=".data
        (queryString (buildURL { Lat := "1", Long := "2", Key := "k", Exclude := ["hourly", "daily"], Lang := "en#top", Units := "si" })) = 1 :=
  C2_units_param { Lat := "1", Long := "2", Key := "k", Exclude := ["hourly", "daily"], Lang := "en#top", Units := "si" }
    (by decide) (by decide) (by decide) (by decide) (by decide) (by decide) (by decide)
    (by decide) (by decide) (by decide) (by decide)

/-- The query string stops at the fragment: a `#` in the key leaves no query, and a `#` in
the units cuts the value of the `units` parameter. -/
theorem queryString_fragment_examples :
    queryString (buildURL { Lat := "1", Long := "2", Key := "k#", Exclude := [], Lang := "", Units := "" }) = [] ∧
    queryString (buildURL { Lat := "1", Long := "2", Key := "k", Exclude := ["hourly"], Lang := "en", Units := "si#x" })
      = "units=si".data := by
  decide

/-- C3, as stated, fails: with an empty exclude list the URL contains `&exclude=`
as soon as another field carries it (here `Units`). -/
theorem C3_counterexample :
    ({ Lat := "1", Long := "2", Key := "k", Exclude := [], Lang := "", Units := "si&exclude=hourly" } : ApiRequest).Exclude = [] ∧
    Contains (buildURL { Lat := "1", Long := "2", Key := "k", Exclude := [], Lang := "", Units := "si&exclude=hourly" }) "&exclude=" := by
  decide

/-- C3 (amended): if `Exclude` is non-empty then `buildURL` contains `&exclude=`
immediately followed by the entries joined by `,` in their order; if `Exclude` is empty
and none of `Key`, `Lat`, `Long`, `Units`, `Lang` contains `&exclude=`, then `&exclude=`
does not occur in `buildURL`. -/
theorem C3_exclude_param (r : ApiRequest) :
    (r.Exclude ≠ [] →
      Contains (buildURL r) ("&exclude=" ++ ",".intercalate r.Exclude)) ∧
    (r.Exclude = [] →
      ¬ Contains r.Key "&exclude=" → ¬ Contains r.Lat "&exclude=" →
      ¬ Contains r.Long "&exclude=" → ¬ Contains r.Units "&exclude=" →
      ¬ Contains r.Lang "&exclude=" →
      ¬ Contains (buildURL r) "&exclude=") := by
  constructor
  · intro he
    unfold Contains
    rw [buildURL_norm, ← Join_eq_intercalate]
    have : excludePart r = "&exclude=" ++ Join r.Exclude "," := by simp [excludePart, he]
    rw [this]
    refine ⟨(url ++ "/" ++ r.Key ++ "/" ++ r.Lat ++ "," ++ r.Long ++ "?units="
      ++ unitsValue r).data, (langPart r).data, ?_⟩
    simp [String.data_append]
  · intro he hK hLat hLong hU hL h
    unfold Contains at hK hLat hLong hU hL h
    have h := infix_query_of_infix_buildURL r (by decide) (by decide) (by decide) (by decide)
      hK hLat hLong h
    have hex : excludePart r = "" := by simp [excludePart, he]
    rw [hex] at h
    have h : ('&' :: "exclude=".data) <:+: (unitsValue r).data ++ (langPart r).data :=
      infix_of_head_not_mem (A := "units=".data) (by decide) (by simpa using h)
    have hU2 := not_infix_unitsValue r (p := "&exclude=".data) (by decide) hU
    unfold langPart at h
    split at h
    · exact hU2 (by simpa using h)
    · have h : ('&' :: "exclude=".data) <:+: (unitsValue r).data ++ '&' :: ("lang=".data ++ r.Lang.data) := by
        simpa [String.data_append] using h
      rcases infix_split_head_only (by decide) h with h | h | h
      · exact hU2 h
      · rw [List.cons_prefix_cons] at h
        have h2 := h.2
        simp at h2
      · exact hL (infix_of_head_not_mem (A := "lang=".data) (by decide) h)

/-- C3 (witness): the amended statement at a request with an exclude list and at a
request without one. -/
theorem C3_exclude_param_witness :
    Contains (buildURL { Lat := "1", Long := "2", Key := "k", Exclude := ["hourly", "daily"], Lang := "", Units := "" }) "&exclude=hourly,daily" ∧
    ¬ Contains (buildURL { Lat := "1", Long := "2", Key := "k", Exclude := [], Lang := "en", Units := "si" }) "&exclude=" :=
  ⟨(C3_exclude_param { Lat := "1", Long := "2", Key := "k", Exclude := ["hourly", "daily"], Lang := "", Units := "" }).1 (by decide),
   (C3_exclude_param { Lat := "1", Long := "2", Key := "k", Exclude := [], Lang := "en", Units := "si" }).2 rfl (by decide) (by decide) (by decide) (by decide)
      (by decide)⟩

/-- C4, as stated, fails: with an empty language code the URL contains `&lang=`
as soon as another field carries it (here an exclude entry). -/
theorem C4_counterexample :
    ({ Lat := "1", Long := "2", Key := "k", Exclude := ["hourly&lang=de"], Lang := "", Units := "" } : ApiRequest).Lang = "" ∧
    Contains (buildURL { Lat := "1", Long := "2", Key := "k", Exclude := ["hourly&lang=de"], Lang := "", Units := "" }) "&lang=" := by
  decide

/-- C4 (amended): if `Lang` is non-empty then `buildURL` ends with (hence contains)
`&lang=` followed by `Lang`; if `Lang` is empty and none of `Key`, `Lat`, `Long`, `Units`
and the entries of `Exclude` contains `&lang=`, then `&lang=` does not occur in
`buildURL`. -/
theorem C4_lang_param (r : ApiRequest) :
    (r.Lang ≠ "" →
      HasSuffix (buildURL r) ("&lang=" ++ r.Lang) ∧
      Contains (buildURL r) ("&lang=" ++ r.Lang)) ∧
    (r.Lang = "" →
      ¬ Contains r.Key "&lang=" → ¬ Contains r.Lat "&lang=" →
      ¬ Contains r.Long "&lang=" → ¬ Contains r.Units "&lang=" →
      (∀ e ∈ r.Exclude, ¬ Contains e "&lang=") →
      ¬ Contains (buildURL r) "&lang=") := by
  constructor
  · intro hl
    have hs : HasSuffix (buildURL r) ("&lang=" ++ r.Lang) := by
      unfold HasSuffix
      rw [buildURL_norm]
      have : langPart r = "&lang=" ++ r.Lang := by simp [langPart, hl]
      rw [this]
      refine ⟨(url ++ "/" ++ r.Key ++ "/" ++ r.Lat ++ "," ++ r.Long ++ "?units="
        ++ unitsValue r ++ excludePart r).data, ?_⟩
      simp [String.data_append]
    exact ⟨hs, List.IsSuffix.isInfix hs⟩
  · intro hl hK hLat hLong hU hE h
    unfold Contains at hK hLat hLong hU h
    have h := infix_query_of_infix_buildURL r (by decide) (by decide) (by decide) (by decide)
      hK hLat hLong h
    have hlp : langPart r = "" := by simp [langPart, hl]
    rw [hlp] at h
    have h : ('&' :: "lang=".data) <:+: (unitsValue r).data ++ (excludePart r).data :=
      infix_of_head_not_mem (A := "units=".data) (by decide) (by simpa using h)
    have hU2 := not_infix_unitsValue r (p := "&lang=".data) (by decide) hU
    unfold excludePart at h
    split at h
    · exact hU2 (by simpa using h)
    · have h : ('&' :: "lang=".data) <:+:
          (unitsValue r).data ++ '&' :: ("exclude=".data ++ (Join r.Exclude ",").data) := by
        simpa [String.data_append] using h
      rcases infix_split_head_only (by decide) h with h | h | h
      · exact hU2 h
      · rw [List.cons_prefix_cons] at h
        have h2 := h.2
        simp at h2
      · have h3 := infix_of_head_not_mem (A := "exclude=".data) (by decide) h
        obtain ⟨e, he, hpe⟩ := infix_Join (p := "&lang=".data) (by decide) (by decide) r.Exclude h3
        exact hE e he hpe

/-- C4 (witness): the amended statement at a request with a language code and at a
request without one. -/
theorem C4_lang_param_witness :
    (HasSuffix (buildURL { Lat := "1", Long := "2", Key := "k", Exclude := [], Lang := "de", Units := "" }) "&lang=de" ∧
      Contains (buildURL { Lat := "1", Long := "2", Key := "k", Exclude := [], Lang := "de", Units := "" }) "&lang=de") ∧
    ¬ Contains (buildURL { Lat := "1", Long := "2", Key := "k", Exclude := ["hourly"], Lang := "", Units := "si" }) "&lang=" :=
  ⟨(C4_lang_param { Lat := "1", Long := "2", Key := "k", Exclude := [], Lang := "de", Units := "" }).1 (by decide),
   (C4_lang_param { Lat := "1", Long := "2", Key := "k", Exclude := ["hourly"], Lang := "", Units := "si" }).2 rfl (by decide) (by decide) (by decide) (by decide)
      (by decide)⟩

/-- C10: `buildURL` is injective on URL-safe requests: if `Key`, `Lat`, `Long`, `Units`,
`Lang` and every entry of `Exclude` of two requests contain none of `/`, `,`, `?`, `&`,
and both `Units` are non-empty, then equal URLs force equal `Key`, `Lat`, `Long`, `Units`,
`Lang` and the same `Exclude` sequence. -/
theorem C10_buildURL_injective (r1 r2 : ApiRequest) (h1 : URLSafe r1) (h2 : URLSafe r2)
    (hu1 : r1.Units ≠ "") (hu2 : r2.Units ≠ "") (h : buildURL r1 = buildURL r2) :
    r1.Key = r2.Key ∧ r1.Lat = r2.Lat ∧ r1.Long = r2.Long ∧ r1.Units = r2.Units ∧
    r1.Lang = r2.Lang ∧ r1.Exclude = r2.Exclude := by
  have hd := congrArg String.data h
  rw [buildURL_data, buildURL_data] at hd
  have hd := List.cons.inj (List.append_cancel_left hd)
  have hK := split_unique (c := '/') h1.1.1 h2.1.1 hd.2
  have hLat := split_unique (c := ',') h1.2.1.2.1 h2.2.1.2.1 hK.2
  have hLong := split_unique (c := '?') h1.2.2.1.2.2.1 h2.2.2.1.2.2.1 hLat.2
  have hq := List.append_cancel_left hLong.2
  have hv1 : unitsValue r1 = r1.Units := by simp [unitsValue, hu1]
  have hv2 : unitsValue r2 = r2.Units := by simp [unitsValue, hu2]
  rw [hv1, hv2] at hq
  have hU := split_unique_end (c := '&') h1.2.2.2.1.2.2.2 h2.2.2.2.1.2.2.2
    (tail_shape r1) (tail_shape r2) hq
  have hT := tail_injective r1 r2 h1 h2 hU.2
  exact ⟨String.ext hK.1, String.ext hLat.1, String.ext hLong.1, String.ext hU.1, hT.1, hT.2⟩

/-- C10 (witness): two URL-safe requests with non-empty units and the same URL. -/
theorem C10_buildURL_injective_witness :
    URLSafe { Lat := "40.0", Long := "-105.0", Key := "k", Exclude := ["hourly", "daily"], Lang := "en", Units := "si" } ∧
    ({ Lat := "40.0", Long := "-105.0", Key := "k", Exclude := ["hourly", "daily"], Lang := "en", Units := "si" } : ApiRequest).Units ≠ "" ∧
    ({ Lat := "40.0", Long := "-105.0", Key := "k", Exclude := ["hourly", "daily"], Lang := "en", Units := "si" } : ApiRequest).Exclude
      = ({ Lat := "40.0", Long := "-105.0", Key := "k", Exclude := ["hourly", "daily"], Lang := "en", Units := "si" } : ApiRequest).Exclude :=
  ⟨by decide, by decide,
   (C10_buildURL_injective
      { Lat := "40.0", Long := "-105.0", Key := "k", Exclude := ["hourly", "daily"], Lang := "en", Units := "si" }
      { Lat := "40.0", Long := "-105.0", Key := "k", Exclude := ["hourly", "daily"], Lang := "en", Units := "si" }
      (by decide) (by decide) (by decide) (by decide) rfl).2.2.2.2.2⟩

/-- The remark of C10: without the non-empty `Units` hypothesis injectivity fails, as empty
units and the units `auto` build the same URL. -/
theorem buildURL_not_injective_without_units :
    URLSafe { Lat := "1", Long := "2", Key := "k", Exclude := [], Lang := "", Units := "" } ∧
    URLSafe { Lat := "1", Long := "2", Key := "k", Exclude := [], Lang := "", Units := "auto" } ∧
    buildURL { Lat := "1", Long := "2", Key := "k", Exclude := [], Lang := "", Units := "" }
      = buildURL { Lat := "1", Long := "2", Key := "k", Exclude := [], Lang := "", Units := "auto" } := by
  decide

/-- C5: whatever the transport and the decoder do, `GetForecast` returns either a
non-nil Forecast with a nil error or a nil Forecast with a non-nil error, never both a
Forecast and an error and never neither. -/
theorem C5_forecast_xor_error {Body Forecast Err : Type} (Get : String → Except Err Body)
    (Decode : Body → Forecast → Forecast × Option Err) (zero : Forecast) (req : ApiRequest) :
    ((∃ f, (GetForecast Get Decode zero req).forecast = some f) ∧
        (GetForecast Get Decode zero req).err = none) ∨
    ((GetForecast Get Decode zero req).forecast = none ∧
        ∃ e, (GetForecast Get Decode zero req).err = some e) := by
  unfold GetForecast getResponse decodeJSON
  cases hg : Get (buildURL req) with
  | error e => right; simp [hg]
  | ok body =>
    rcases hd : Decode body zero with ⟨f, _ | e⟩
    · left; simp [hg, hd]
    · right; simp [hg, hd]

/-- C6: if the HTTP GET of `buildURL r` fails with `e`, then `GetForecast` returns a nil
Forecast and the error `e` itself, the decoder is not called and does not influence the
outcome, and the trace holds exactly one GET, of `buildURL r`. -/
theorem C6_get_error_short_circuits {Body Forecast Err : Type}
    (Get : String → Except Err Body) (Decode : Body → Forecast → Forecast × Option Err)
    (zero : Forecast) (r : ApiRequest) (e : Err) (h : Get (buildURL r) = .error e) :
    (GetForecast Get Decode zero r).forecast = none ∧
    (GetForecast Get Decode zero r).err = some e ∧
    (GetForecast Get Decode zero r).trace.filter Event.isDecode = [] ∧
    (∀ Decode2 : Body → Forecast → Forecast × Option Err,
      GetForecast Get Decode2 zero r = GetForecast Get Decode zero r) ∧
    (GetForecast Get Decode zero r).trace.filter Event.isGet = [Event.get (buildURL r)] := by
  unfold GetForecast getResponse
  simp [h, Event.isGet, Event.isDecode]

/-- C6 (witness): a transport that times out on every URL. -/
theorem C6_get_error_short_circuits_witness :
    (@GetForecast Unit Nat String (fun _ => Except.error "timeout")
        (fun _ f => (f + 1, none)) 0
        { Lat := "1", Long := "2", Key := "k", Exclude := [], Lang := "", Units := "" }).forecast = none ∧
    (@GetForecast Unit Nat String (fun _ => Except.error "timeout")
        (fun _ f => (f + 1, none)) 0
        { Lat := "1", Long := "2", Key := "k", Exclude := [], Lang := "", Units := "" }).err = some "timeout" :=
  ⟨(@C6_get_error_short_circuits Unit Nat String (fun _ => Except.error "timeout")
      (fun _ f => (f + 1, none)) 0
      { Lat := "1", Long := "2", Key := "k", Exclude := [], Lang := "", Units := "" } "timeout" rfl).1,
   (@C6_get_error_short_circuits Unit Nat String (fun _ => Except.error "timeout")
      (fun _ f => (f + 1, none)) 0
      { Lat := "1", Long := "2", Key := "k", Exclude := [], Lang := "", Units := "" } "timeout" rfl).2.1⟩

/-- C7: when the underlying decode of a body reports the error `e`, whatever it had
already written into the Forecast, `decodeJSON` returns a nil Forecast and the error `e`
itself. -/
theorem C7_decode_error_returns_nil {Body Forecast Err : Type}
    (Decode : Body → Forecast → Forecast × Option Err) (zero : Forecast) (reader : Body)
    (filled : Forecast) (e : Err) (h : Decode reader zero = (filled, some e)) :
    (decodeJSON Decode zero reader).forecast = none ∧
    (decodeJSON Decode zero reader).err = some e := by
  unfold decodeJSON
  simp [h]

/-- C7 (witness): a decoder that fills the Forecast and then reports an error. -/
theorem C7_decode_error_returns_nil_witness :
    (@decodeJSON Unit Nat String (fun _ f => (f + 40, some "unexpected EOF")) 0 ()).forecast = none ∧
    (@decodeJSON Unit Nat String (fun _ f => (f + 40, some "unexpected EOF")) 0 ()).err
      = some "unexpected EOF" :=
  @C7_decode_error_returns_nil Unit Nat String
    (fun _ f => (f + 40, some "unexpected EOF")) 0 () 40 "unexpected EOF" rfl

/-- C8 (the code at the failing input): `minutely` picks no field of `Forecast`, so two
responses that differ only in their `minutely` block decode to the same outcome, and a
response that holds only a `minutely` block decodes to the zero Forecast. -/
theorem C8_minutely_not_decoded :
    findField exampleLib.equalFold Schema.Forecast.fields "minutely" = none ∧
    decodeBody exampleLib (.object [("latitude", .number "40.0"), ("minutely", .object [("summary", .string "Light rain."), ("data", .array [.object [("time", .number "1"), ("precipIntensity", .number "0.5"), ("precipProbability", .number "1")]])])])
      = decodeBody exampleLib (.object [("latitude", .number "40.0"), ("minutely", .object [("summary", .string "Clear."), ("data", .array [])])]) ∧
    (decodeBody exampleLib (.object [("minutely", .object [("summary", .string "Light rain."), ("data", .array [.object [("time", .number "1"), ("precipIntensity", .number "0.5"), ("precipProbability", .number "1")]])])])).forecast
      = some (Schema.Forecast.zero "0") :=
  ⟨rfl, rfl, rfl⟩

/-- C9: for a body that scans to a JSON object, (1) `decodeJSON` returns a Forecast and no
error as long as every member whose key picks a Forecast field fits the type of that field
(at every depth); (2) members whose key picks no Forecast field are ignored: the outcome is
that of the document without them; (3) in the returned Forecast every field that no member
picks has its zero value; (4) when no member picks a field, the outcome is the all-zero
Forecast and no error. -/
theorem C9_decode_permissive {Body F E : Type} (lib : JsonLib Body F E) (reader : Body)
    (members : List (String × JSON)) (h : lib.readValue reader = .ok (.object members)) :
    (fits lib (.object members) Schema.Forecast = true →
      (decodeBody lib reader).err = none ∧ ∃ f, (decodeBody lib reader).forecast = some f) ∧
    (∀ reader2 : Body,
      lib.readValue reader2 = .ok (.object (members.filter (fun m => picksField lib m.1))) →
      decodeBody lib reader2 = decodeBody lib reader) ∧
    (∀ fld ∈ Schema.Forecast.fields,
      (∀ m ∈ members, findField lib.equalFold Schema.Forecast.fields m.1 ≠ some fld) →
      ∀ f, (decodeBody lib reader).forecast = some f →
        getField f.fields fld.1 = some (fld.2.2.zero lib.zeroFloat)) ∧
    ((∀ m ∈ members, picksField lib m.1 = false) →
      (decodeBody lib reader).forecast = some (Schema.Forecast.zero lib.zeroFloat) ∧
      (decodeBody lib reader).err = none) := by
  have hb := decodeBody_object lib reader members h
  refine ⟨?_, ?_, ?_, ?_⟩
  · intro hfit
    have hfit : fitsMembers lib members Schema.Forecast.fields = true := by
      simpa [fits, Schema.Forecast, GoType.fields] using hfit
    have hok := decodeMembers_fits lib members Schema.Forecast.fields
      (zeroFields lib.zeroFloat Schema.Forecast.fields) hfit
    rw [hb]
    rcases hd : decodeMembers lib members Schema.Forecast.fields
      (zeroFields lib.zeroFloat Schema.Forecast.fields) with ⟨vals, _ | err⟩
    · exact ⟨rfl, _, rfl⟩
    · rw [hd] at hok
      exact absurd hok (by simp)
  · intro reader2 h2
    rw [hb, decodeBody_object lib reader2 _ h2]
    unfold picksField
    rw [decodeMembers_filter]
  · intro fld hfld hno f hf
    have hkeep := decodeMembers_getField lib Schema.Forecast.fields fld.1 members
      (zeroFields lib.zeroFloat Schema.Forecast.fields) (by
        intro m hm g hg hname
        apply hno m hm
        rw [hg]
        exact congrArg some (List.inj_on_of_nodup_map Forecast_field_names_nodup
          (findField_mem hg) hfld hname))
    rw [getField_zero_Forecast lib.zeroFloat fld hfld] at hkeep
    rw [hb] at hf
    rcases hd : decodeMembers lib members Schema.Forecast.fields
      (zeroFields lib.zeroFloat Schema.Forecast.fields) with ⟨vals, _ | err⟩
    · rw [hd] at hf hkeep
      have : f = GoVal.struct vals := by
        have hf2 : some (GoVal.struct vals) = some f := hf
        exact (Option.some.inj hf2).symm
      rw [this]
      exact hkeep
    · rw [hd] at hf
      exact absurd hf (by simp)
  · intro hnone
    have hu := decodeMembers_unmatched lib Schema.Forecast.fields members
      (zeroFields lib.zeroFloat Schema.Forecast.fields) (by
        intro m hm
        have := hnone m hm
        unfold picksField at this
        simpa using this)
    rw [hb, hu]
    exact ⟨rfl, rfl⟩

/-- C9 (witness): the document `{"latitude":40.0,"longitude":-105.0,"unknownField":"x"}`
decodes without error, and the document `{"unknownField":"x"}` decodes to the all-zero
Forecast. -/
theorem C9_decode_permissive_witness :
    ((decodeBody exampleLib (.object [("latitude", .number "40.0"), ("longitude", .number "-105.0"), ("unknownField", .string "x")])).err = none ∧
      ∃ f, (decodeBody exampleLib (.object [("latitude", .number "40.0"), ("longitude", .number "-105.0"), ("unknownField", .string "x")])).forecast = some f) ∧
    ((decodeBody exampleLib (.object [("unknownField", .string "x")])).forecast
        = some (Schema.Forecast.zero "0") ∧
      (decodeBody exampleLib (.object [("unknownField", .string "x")])).err = none) :=
  ⟨(C9_decode_permissive exampleLib
      (.object [("latitude", .number "40.0"), ("longitude", .number "-105.0"), ("unknownField", .string "x")])
      [("latitude", .number "40.0"), ("longitude", .number "-105.0"), ("unknownField", .string "x")]
      rfl).1 rfl,
   (C9_decode_permissive exampleLib (.object [("unknownField", .string "x")])
      [("unknownField", .string "x")] rfl).2.2.2 (by decide)⟩

/-- The example of the specification: `{"latitude": 40.0, "longitude": -105.0}` decodes,
without error, to the Forecast with these two fields set and every other field zero. -/
theorem decodeBody_latitude_longitude :
    decodeBody exampleLib (.object [("latitude", .number "40.0"), ("longitude", .number "-105.0")])
      = { trace := [.decode],
          forecast := some (.struct [
            ("Currently", Schema.Currently.zero "0"),
            ("Daily", Schema.Daily.zero "0"),
            ("Hourly", Schema.Hourly.zero "0"),
            ("Latitude", .float64 "40.0"),
            ("Longitude", .float64 "-105.0"),
            ("Offset", .int 0),
            ("Timezone", .string ""),
            ("Alerts", .slice [])]),
          err := none } :=
  rfl

/-- A fractional `offset` is a JSON number that does not fit the Go type `int`: the decode
reports an `UnmarshalTypeError` and `decodeJSON` returns no Forecast. -/
theorem decodeBody_fractional_offset :
    decodeBody exampleLib (.object [("latitude", .number "28.6"), ("offset", .number "5.5")])
      = { trace := [.decode, .logError "[ERROR] decoding json:" (.unmarshalType "number 5.5" .int)],
          forecast := none,
          err := some (.unmarshalType "number 5.5" .int) } :=
  rfl

end Darksky
